import Mathlib

/-!
Verification of the TableCrafter data-grid core (src/tablecrafter.js):
a shallow embedding of the data engine (filtering, sorting, pagination,
permissions, CSV serialization, inline-edit session, bulk delete) together
with theorems settling the specification claims.

JS scalar values are embedded as the inductive `Value`; machine numbers are
modelled as exact integers/rationals (float rounding is irrelevant to the
properties proved here).  Host-library primitives used by the code
(`Number`, `parseFloat`, `String.prototype.trim/includes/toLowerCase`,
`Array.prototype.sort` = a stable comparator sort per ES2019, `Date.parse`)
are modelled explicitly below; `Date.parse` succeeding on a string is kept
as an explicit function parameter wherever a theorem depends on it.
-/

namespace TableCrafter

/-- JS scalar values occurring in records: strings, (integer) numbers,
booleans, `null` and `undefined` (an absent object property reads as
`undefined`). -/
inductive Value where
  | str (s : String)
  | num (n : Int)
  | bool (b : Bool)
  | null
  | undefV
deriving DecidableEq, Repr

/-- JS truthiness of a scalar value. -/
def Value.truthy : Value → Bool
  | .str s => s ≠ ""
  | .num n => n ≠ 0
  | .bool b => b
  | .null => false
  | .undefV => false

/-- JS `String(v)` / `v.toString()` on a scalar value. -/
def Value.toStr : Value → String
  | .str s => s
  | .num n => toString n
  | .bool b => if b then "true" else "false"
  | .null => "null"
  | .undefV => "undefined"

/-- A record is an open field-name → value mapping, embedded as an
insertion-ordered association list (JS object property order). -/
def Record := List (String × Value)

instance : DecidableEq Record := by unfold Record; infer_instance

instance : Repr Record := by unfold Record; infer_instance

/-- Reading `row[field]`: the first binding for the field, `undefined` when
the field is absent. -/
def Record.get (r : Record) (f : String) : Value :=
  match r with
  | [] => .undefV
  | (g, w) :: rest => if g == f then w else Record.get rest f

/-- Writing `row[field] = v`: replace the existing binding in place, or
append a new one (JS object assignment semantics). -/
def Record.set (r : Record) (f : String) (v : Value) : Record :=
  match r with
  | [] => [(f, v)]
  | (g, w) :: rest => if g == f then (g, v) :: rest else (g, w) :: Record.set rest f v

/-- JS whitespace recognized by `trim` / numeric coercion (ASCII subset). -/
def isJsWs (c : Char) : Bool :=
  c == ' ' || c == '\t' || c == '\n' || c == '\r'

/-- Model of `String.prototype.trim()`. -/
def jsTrim (s : String) : String :=
  ⟨((s.data.dropWhile isJsWs).reverse.dropWhile isJsWs).reverse⟩

/-- Containment of a contiguous character run, for `String.prototype.includes`. -/
def subListAt : List Char → List Char → Bool
  | [], _ => true
  | _ :: _, [] => false
  | n :: ns, h :: hs => (n == h && List.isPrefixOf ns hs) || subListAt (n :: ns) hs

/-- Model of `String.prototype.includes(needle)`. -/
def jsIncludes (hay needle : String) : Bool :=
  subListAt needle.data hay.data

/-- Model of `String.prototype.toLowerCase()` (ASCII letters). -/
def jsToLower (s : String) : String :=
  ⟨s.data.map Char.toLower⟩

/-- JS numbers as observed by the code's comparisons: NaN, infinities, or a
finite exact value represented as an (unnormalized) fraction `num / den`
with `den > 0`.  Comparisons are semantic (cross-multiplied), so the lack
of normalization is unobservable. -/
inductive JsNum where
  | nan
  | posInf
  | negInf
  | fin (num : Int) (den : Nat)
deriving DecidableEq, Repr

/-- Strict `<` between JS numbers: any comparison with NaN is false. -/
def JsNum.lt : JsNum → JsNum → Bool
  | .nan, _ => false
  | _, .nan => false
  | .posInf, _ => false
  | .negInf, .negInf => false
  | .negInf, _ => true
  | .fin _ _, .posInf => true
  | .fin _ _, .negInf => false
  | .fin a d, .fin b e => a * e < b * d

/-- A JS number is finite (for `isFinite`). -/
def JsNum.isFinite : JsNum → Bool
  | .fin _ _ => true
  | _ => false

def digitVal (c : Char) : Nat := c.toNat - 48

def isDigitChar (c : Char) : Bool := 48 ≤ c.toNat && c.toNat ≤ 57

/-- Natural-number value of a run of decimal digits (most significant
first), accumulated left to right. -/
def digitsToNat (ds : List Char) : Nat :=
  ds.foldl (fun acc c => acc * 10 + digitVal c) 0

/-- Scale a fraction by a signed power of ten (decimal exponent part). -/
def scalePow10 (q : Int × Nat) (e : Int) : Int × Nat :=
  if 0 ≤ e then (q.1 * (10 : Int) ^ e.toNat, q.2) else (q.1, q.2 * 10 ^ (-e).toNat)

/-- Decimal-literal parse used by both `Number` and `parseFloat` models:
given the characters after an optional sign, read `digits [. digits] [e
[sign] digits]` and return the value (as a fraction) together with the
unconsumed rest; `none` when no digit is present. -/
def parseDecimal (cs : List Char) : Option ((Int × Nat) × List Char) :=
  let intPart := cs.takeWhile isDigitChar
  let rest1 := cs.dropWhile isDigitChar
  let (fracPart, rest2) :=
    match rest1 with
    | '.' :: t => (t.takeWhile isDigitChar, t.dropWhile isDigitChar)
    | _ => ([], rest1)
  let consumedDot := match rest1 with | '.' :: _ => true | _ => false
  if intPart.isEmpty && fracPart.isEmpty then none
  else
    let mantissa : Int × Nat :=
      ((digitsToNat intPart * 10 ^ fracPart.length + digitsToNat fracPart : Nat),
        10 ^ fracPart.length)
    let rest2' := if consumedDot then rest2 else rest1
    match rest2' with
    | e :: t =>
      if e == 'e' || e == 'E' then
        let (esign, t2) :=
          match t with
          | c :: u =>
            if c == '+' then ((1 : Int), u)
            else if c == '-' then ((-1 : Int), u)
            else ((1 : Int), t)
          | [] => ((1 : Int), t)
        let eds := t2.takeWhile isDigitChar
        if eds.isEmpty then some (mantissa, rest2')
        else some (scalePow10 mantissa (esign * digitsToNat eds), t2.dropWhile isDigitChar)
      else some (mantissa, rest2')
    | [] => some (mantissa, [])

/-- Model of `parseFloat(s)`: skip leading whitespace, read an optional
sign, then the longest decimal (or `Infinity`) literal; NaN when none. -/
def jsParseFloat (s : String) : JsNum :=
  let cs := s.data.dropWhile isJsWs
  let (neg, cs') :=
    match cs with
    | '+' :: t => (false, t)
    | '-' :: t => (true, t)
    | _ => (false, cs)
  if List.isPrefixOf "Infinity".data cs' then (if neg then .negInf else .posInf)
  else
    match parseDecimal cs' with
    | some (q, _) => .fin (if neg then -q.1 else q.1) q.2
    | none => .nan

def hexVal (c : Char) : Option Nat :=
  let n := c.toNat
  if 48 ≤ n && n ≤ 57 then some (n - 48)
  else if 97 ≤ n && n ≤ 102 then some (n - 87)
  else if 65 ≤ n && n ≤ 70 then some (n - 55)
  else none

def radixDigits (base : Nat) (cs : List Char) : Option Nat :=
  match cs with
  | [] => none
  | _ =>
    cs.foldl (fun acc c =>
      match acc, hexVal c with
      | some n, some d => if d < base then some (n * base + d) else none
      | _, _ => none) (some 0)

/-- Model of ECMAScript `StringToNumber` (the coercion behind `Number(s)`
and `isNaN(s)`): trim, empty → 0, else a fully-consumed signed decimal /
`Infinity` literal or an unsigned `0x`/`0o`/`0b` radix literal; NaN
otherwise.  (Float overflow of huge exponents to `Infinity` is not
modelled.) -/
def jsStringToNumber (s : String) : JsNum :=
  let cs := (jsTrim s).data
  match cs with
  | [] => .fin 0 1
  | _ =>
    let (neg, signed, cs') :=
      match cs with
      | '+' :: t => (false, true, t)
      | '-' :: t => (true, true, t)
      | _ => (false, false, cs)
    if cs' == "Infinity".data then (if neg then .negInf else .posInf)
    else
      match cs' with
      | '0' :: x :: t =>
        if !signed && (x == 'x' || x == 'X') then
          match radixDigits 16 t with | some n => .fin n 1 | none => .nan
        else if !signed && (x == 'o' || x == 'O') then
          match radixDigits 8 t with | some n => .fin n 1 | none => .nan
        else if !signed && (x == 'b' || x == 'B') then
          match radixDigits 2 t with | some n => .fin n 1 | none => .nan
        else
          match parseDecimal cs' with
          | some (q, []) => .fin (if neg then -q.1 else q.1) q.2
          | _ => .nan
      | _ =>
        match parseDecimal cs' with
        | some (q, []) => .fin (if neg then -q.1 else q.1) q.2
        | _ => .nan

/-- Model of JS `Number(v)` on a scalar value. -/
def jsToNumber : Value → JsNum
  | .str s => jsStringToNumber s
  | .num n => .fin n 1
  | .bool b => .fin (if b then 1 else 0) 1
  | .null => .fin 0 1
  | .undefV => .nan

/-- Lexicographic `<` on character runs, modelling JS string relational
comparison (by code unit; identical for the basic plane). -/
def charListLt : List Char → List Char → Bool
  | [], [] => false
  | [], _ :: _ => true
  | _ :: _, [] => false
  | a :: as, b :: bs =>
    if a.toNat < b.toNat then true
    else if b.toNat < a.toNat then false
    else charListLt as bs

/-- Model of the JS `<` operator on two scalar values: string-to-string is
lexicographic, otherwise both sides coerce to numbers (false on NaN). -/
def jsLtValue : Value → Value → Bool
  | .str a, .str b => charListLt a.data b.data
  | a, b => JsNum.lt (jsToNumber a) (jsToNumber b)

/-- Raw value passed to `setFilter` and held in `this.filters`: a text
string, an array (multiselect), an object (`{min,max}` / `{from,to}` range
bounds, possibly empty), or `null`. -/
inductive RawFilter where
  | str (s : String)
  | arr (xs : List Value)
  | obj (pairs : List (String × Value))
  | nullV
deriving DecidableEq, Repr

/-- JS truthiness of a raw filter value: note that arrays and objects —
including the empty array and the empty object — are truthy. -/
def RawFilter.truthy : RawFilter → Bool
  | .str s => s ≠ ""
  | .arr _ => true
  | .obj _ => true
  | .nullV => false

def RawFilter.isArr : RawFilter → Bool
  | .arr _ => true
  | _ => false

def RawFilter.arrEmpty : RawFilter → Bool
  | .arr xs => xs.isEmpty
  | _ => false

/-- Property access `filterValue.k` (range bounds): `undefined` on
non-objects and missing keys. -/
def RawFilter.prop : RawFilter → String → Value
  | .obj pairs, k =>
    match pairs.find? (fun p => p.1 == k) with
    | some p => p.2
    | none => .undefV
  | _, _ => .undefV

/-- Model of `filterValue.toString()`: JS array `toString` joins element
strings with commas (null/undefined elements print empty); a plain object
prints `[object Object]`. -/
def RawFilter.toStr : RawFilter → String
  | .str s => s
  | .arr xs =>
    match xs.map (fun v => match v with | .null => "" | .undefV => "" | w => w.toStr) with
    | [] => ""
    | s :: ss => ss.foldl (fun acc t => acc ++ "," ++ t) s
  | .obj _ => "[object Object]"
  | .nullV => "null"

/-- Association-list update with JS object-assignment semantics: replace
the existing key in place, else append. -/
def setKey {α : Type} : List (String × α) → String → α → List (String × α)
  | [], k, v => [(k, v)]
  | (g, w) :: rest, k, v =>
    if g == k then (g, v) :: rest else (g, w) :: setKey rest k v

/-- Association-list removal with JS `delete` semantics. -/
def delKey {α : Type} : List (String × α) → String → List (String × α)
  | [], _ => []
  | (g, w) :: rest, k => if g == k then rest else (g, w) :: delKey rest k

def lookupKey {α : Type} (l : List (String × α)) (k : String) : Option α :=
  match l.find? (fun p => p.1 == k) with
  | some p => some p.2
  | none => none

/-- Column configuration (the fields the core logic reads).  `exportable`
models the code's `column.exportable !== false` test. -/
structure Column where
  field : String
  label : String
  exportable : Bool := true
deriving DecidableEq, Repr

/-- Current user, as set by `setCurrentUser`. -/
structure User where
  id : Value
  roles : List String
deriving DecidableEq, Repr

/-- The in-progress inline edit: the edit element's dataset
(`rowIndex`, `field`, `originalValue`) — dataset entries are DOM strings. -/
structure EditSession where
  rowIndex : Nat
  field : String
  originalValue : String
deriving DecidableEq, Repr

/-- The configuration fields the data engine reads (constructor defaults
from the source). -/
structure Config where
  pagination : Bool := false
  pageSize : Nat := 25
  filterable : Bool := true
  exportFiltered : Bool := true
  permissionsEnabled : Bool := false
  permissionRoles : List (String × List String) :=
    [("view", ["*"]), ("edit", ["*"]), ("delete", ["*"]), ("create", ["*"])]
  ownOnly : Bool := false
  apiConfigured : Bool := false
  hasOnFilter : Bool := false
  hasOnEdit : Bool := false
  hasOnExport : Bool := false
  filtersAutoDetect : Bool := true
  filterTypesConfig : List (String × String) := []
  columns : List Column := []
deriving Repr

/-- The widget instance state the claims are about: record collection,
filter/sort/page/selection/edit state, user context, and logs of the
observer callbacks the core fires (render and storage persistence are
external collaborators and modelled as no-ops). -/
structure TC where
  config : Config
  data : List Record := []
  filters : List (String × RawFilter) := []
  filterTypes : List (String × String) := []
  currentPage : Nat := 1
  sortField : Option String := none
  sortOrder : String := "asc"
  selectedRows : List Nat := []
  editingCell : Option EditSession := none
  currentUser : Option User := none
  userPermissions : List String := []
  onFilterLog : List (List (String × RawFilter) × List Record) := []
  onEditLog : List (Nat × String × String × String) := []
  onExportLog : List (List Record × String) := []
deriving Repr

/-- Allow-list for an action: `permissions[action] || []`. -/
def permissionsFor (cfg : Config) (action : String) : List String :=
  (lookupKey cfg.permissionRoles action).getD []

/-- Translation of `hasPermission(action, entry)` (tablecrafter.js
2426-2451).  The `entry && this.currentUser` truthiness test from the
source is the `match` on the two options. -/
def hasPermission (st : TC) (action : String) (entry : Option Record) : Bool :=
  if !st.config.permissionsEnabled then true
  else
    let allowedRoles := permissionsFor st.config action
    if allowedRoles.contains "*" then true
    else if !st.userPermissions.any (fun role => allowedRoles.contains role) then false
    else if st.config.ownOnly then
      match entry, st.currentUser with
      | some e, some u => (e.get "user_id" == u.id) || (e.get "created_by" == u.id)
      | _, _ => true
    else true

/-- Translation of `setCurrentUser(user)`. -/
def setCurrentUser (st : TC) (user : User) : TC :=
  { st with currentUser := some user, userPermissions := user.roles }

/-- Translation of `getPermissionFilteredData()`. -/
def getPermissionFilteredData (st : TC) : List Record :=
  if !st.config.permissionsEnabled || !st.config.ownOnly then st.data
  else st.data.filter (fun entry => hasPermission st "view" (some entry))

/-- Modelled host function: `new Date(v).valueOf()` as a JS number.
Numbers are epoch milliseconds; strings are parsed here for the ISO
`YYYY-MM-DD` shape only, mapped order-faithfully to an integer day key;
other strings give an invalid date (NaN), as do `undefined` cells. -/
def jsDateValue : Value → JsNum
  | .num n => .fin n 1
  | .bool b => .fin (if b then 1 else 0) 1
  | .null => .fin 0 1
  | .undefV => .nan
  | .str s =>
    match s.data with
    | [y1, y2, y3, y4, '-', m1, m2, '-', d1, d2] =>
      if [y1, y2, y3, y4, m1, m2, d1, d2].all isDigitChar then
        .fin (digitsToNat [y1, y2, y3, y4] * 10000 + digitsToNat [m1, m2] * 100 +
          digitsToNat [d1, d2]) 1
      else .nan
    | _ => .nan

/-- Effective filter type of a field: `this.filterTypes[field] || 'text'`. -/
def filterTypeOf (types : List (String × String)) (field : String) : String :=
  match lookupKey types field with
  | some t => if t == "" then "text" else t
  | none => "text"

/-- Translation of the per-entry predicate inside `getFilteredData()`
(tablecrafter.js 781-817): one field filter applied to one row. -/
def filterEntryPasses (types : List (String × String)) (row : Record)
    (field : String) (filterValue : RawFilter) : Bool :=
  if !filterValue.truthy || (filterValue.isArr && filterValue.arrEmpty) then true
  else
    let cellValue := row.get field
    match filterTypeOf types field with
    | "multiselect" =>
      filterValue.isArr &&
        (match filterValue with | .arr xs => xs.contains cellValue | _ => false)
    | "daterange" =>
      if !cellValue.truthy then false
      else
        let cellDate := jsDateValue cellValue
        let fromPresent := (filterValue.prop "from").truthy
        let toPresent := (filterValue.prop "to").truthy
        if fromPresent && JsNum.lt cellDate (jsDateValue (filterValue.prop "from")) then false
        else if toPresent && JsNum.lt (jsDateValue (filterValue.prop "to")) cellDate then false
        else true
    | "numberrange" =>
      if !cellValue.truthy && cellValue != .num 0 then false
      else
        let numValue := jsParseFloat cellValue.toStr
        if numValue == .nan then false
        else if (filterValue.prop "min") != .undefV &&
            JsNum.lt numValue (jsToNumber (filterValue.prop "min")) then false
        else if (filterValue.prop "max") != .undefV &&
            JsNum.lt (jsToNumber (filterValue.prop "max")) numValue then false
        else true
    | _ =>
      let cellString := jsToLower (if cellValue.truthy then cellValue.toStr else "")
      let filterString := jsToLower filterValue.toStr
      jsIncludes cellString filterString

/-- Translation of `getFilteredData()` (tablecrafter.js 772-819). -/
def getFilteredData (st : TC) : List Record :=
  let data := getPermissionFilteredData st
  if !st.config.filterable || st.filters.isEmpty then data
  else data.filter (fun row =>
    st.filters.all (fun p => filterEntryPasses st.filterTypes row p.1 p.2))

/-- Translation of `setFilter(field, value)` (tablecrafter.js 1242-1265):
normalize-or-delete, reset page, fire the filter observer, re-render. -/
def setFilter (st : TC) (field : String) (value : RawFilter) : TC :=
  let vacuous := !value.truthy ||
    (match value with | .str s => jsTrim s == "" | _ => false) ||
    (match value with | .arr xs => xs.isEmpty | _ => false)
  let stored := match value with | .str s => RawFilter.str (jsTrim s) | v => v
  let filters' := if vacuous then delKey st.filters field else setKey st.filters field stored
  let st1 := { st with filters := filters', currentPage := 1 }
  if st1.config.hasOnFilter then
    { st1 with onFilterLog := st1.onFilterLog ++ [(filters', getFilteredData st1)] }
  else st1

/-- Translation of `clearFilters()` (tablecrafter.js 1270-1275): note it
does not consult `config.onFilter`. -/
def clearFilters (st : TC) : TC :=
  { st with filters := [], currentPage := 1 }

/-- Ceiling division as `Math.ceil(a / b)` computes it for `b > 0`. -/
def jsCeilDiv (a b : Nat) : Nat := (a + b - 1) / b

/-- Translation of `getTotalPages()` (tablecrafter.js 839-845); defined for
`pageSize > 0` (a zero page size would divide by zero in the source). -/
def getTotalPages (st : TC) : Nat :=
  if !st.config.pagination then 1
  else jsCeilDiv (getFilteredData st).length st.config.pageSize

/-- Translation of `getPaginatedData()` (tablecrafter.js 824-834). -/
def getPaginatedData (st : TC) : List Record :=
  let filteredData := getFilteredData st
  if !st.config.pagination then filteredData
  else (filteredData.drop ((st.currentPage - 1) * st.config.pageSize)).take st.config.pageSize

/-- Translation of `shouldShowPagination()` (tablecrafter.js 850-853). -/
def shouldShowPagination (st : TC) : Bool :=
  (getFilteredData st).length > st.config.pageSize

/-- Translation of `goToPage(page)` (tablecrafter.js 858-865). -/
def goToPage (st : TC) (page : Nat) : TC :=
  if 1 ≤ page && page ≤ getTotalPages st then { st with currentPage := page } else st

/-- Translation of `getExportableData()` (tablecrafter.js 1296-1301). -/
def getExportableData (st : TC) : List Record :=
  if st.config.exportFiltered then getFilteredData st else st.data

/-- Translation of `getExportableColumns()` (tablecrafter.js 1306-1308). -/
def getExportableColumns (st : TC) : List Column :=
  st.config.columns.filter (fun column => column.exportable)

/-- Model of `stringValue.replace(/"/g, '""')`. -/
def dupQuotes (s : String) : String :=
  ⟨s.data.foldr (fun c acc => if c == '"' then '"' :: '"' :: acc else c :: acc) []⟩

/-- Translation of `escapeCSVField(value)` (tablecrafter.js 1313-1332). -/
def escapeCSVField (value : Value) : String :=
  if value == .null || value == .undefV then "\"\""
  else
    let stringValue := value.toStr
    if jsIncludes stringValue "," || jsIncludes stringValue "\n" ||
        jsIncludes stringValue "\"" then
      "\"" ++ dupQuotes stringValue ++ "\""
    else if jsStringToNumber stringValue != .nan && jsParseFloat stringValue != .nan then
      stringValue
    else "\"" ++ stringValue ++ "\""

/-- Model of `Array.prototype.join(sep)` on a list of strings. -/
def joinSep (sep : String) : List String → String
  | [] => ""
  | [x] => x
  | x :: xs => x ++ sep ++ joinSep sep xs

/-- Translation of `exportToCSV()` (tablecrafter.js 1337-1364): returns the
updated state (export-observer log) and the CSV text. -/
def exportToCSV (st : TC) : TC × String :=
  let exportableColumns := getExportableColumns st
  let exportableData := getExportableData st
  let headerRow := joinSep "," (exportableColumns.map (fun c => c.label))
  let dataRows := exportableData.map (fun row =>
    joinSep "," (exportableColumns.map (fun column => escapeCSVField (row.get column.field))))
  let csvContent := joinSep "\n" (headerRow :: dataRows)
  let st' :=
    if st.config.hasOnExport then
      { st with onExportLog := st.onExportLog ++ [(exportableData, csvContent)] }
    else st
  (st', csvContent)

/-- Consume exactly `n` decimal digits. -/
def matchDigits : Nat → List Char → Option (List Char)
  | 0, cs => some cs
  | _ + 1, [] => none
  | n + 1, c :: cs => if isDigitChar c then matchDigits n cs else none

/-- Consume one literal character. -/
def matchLit (c : Char) : List Char → Option (List Char)
  | [] => none
  | d :: cs => if d == c then some cs else none

/-- Prefix match for the three date regexes of `isDateField`
(`/^\d{4}-\d{2}-\d{2}/`, `/^\d{2}\/\d{2}\/\d{4}/`, `/^\d{2}-\d{2}-\d{4}/`
— unanchored at the end, so only a prefix is required). -/
def matchesDatePattern (s : String) : Bool :=
  let p1 := (matchDigits 4 s.data).bind (matchLit '-') |>.bind (matchDigits 2)
    |>.bind (matchLit '-') |>.bind (matchDigits 2)
  let p2 := (matchDigits 2 s.data).bind (matchLit '/') |>.bind (matchDigits 2)
    |>.bind (matchLit '/') |>.bind (matchDigits 4)
  let p3 := (matchDigits 2 s.data).bind (matchLit '-') |>.bind (matchDigits 2)
    |>.bind (matchLit '-') |>.bind (matchDigits 4)
  p1.isSome || p2.isSome || p3.isSome

/-- Translation of `isDateField(values)` (tablecrafter.js 988-999).
`dp` is the host `Date.parse` success predicate (`!isNaN(Date.parse(str))`),
kept as a parameter: the theorems below hold for every host behavior. -/
def isDateField (dp : String → Bool) (values : List Value) : Bool :=
  (values.take 5).all (fun val => matchesDatePattern val.toStr || dp val.toStr)

/-- Translation of `isNumericField(values)` (tablecrafter.js 1004-1006):
`!isNaN(parseFloat(val)) && isFinite(val)`. -/
def isNumericField (values : List Value) : Bool :=
  (values.take 10).all (fun val =>
    jsParseFloat val.toStr != .nan && (jsToNumber val).isFinite)

/-- The non-null values of a field across the collection:
`this.data.map(row => row[field]).filter(val => val != null)` (loose `!=`
excludes both `null` and `undefined`). -/
def valuesForField (data : List Record) (field : String) : List Value :=
  (data.map (fun row => Record.get row field)).filter
    (fun val => !(val == .null || val == .undefV))

/-- First-occurrence deduplication, modelling `[...new Set(values)]`. -/
def dedupFirst : List Value → List Value
  | [] => []
  | v :: vs => v :: (dedupFirst vs).filter (fun w => w != v)

/-- Per-column body of `detectFilterTypes()` (tablecrafter.js 950-982):
the filter type recorded for a column whose non-null values are `values`.
`cfgType` is `config.filters.types[field]`'s `.type` when that entry is
present (`none` when absent); `none` as a result means the column is
skipped (no values). -/
def detectFilterTypeFor (dp : String → Bool) (cfgType : Option String)
    (values : List Value) : Option String :=
  if values.isEmpty then none
  else
    match cfgType with
    | none =>
      some
        (if isDateField dp values then "daterange"
        else if isNumericField values then "numberrange"
        else if (dedupFirst values).length ≤ 20 && (dedupFirst values).length > 1 then
          "multiselect"
        else "text")
    | some t => some (if t == "" then "text" else t)

/-- Translation of `detectFilterTypes()` over the whole column list
(tablecrafter.js 945-983), updating `this.filterTypes`. -/
def detectFilterTypes (dp : String → Bool) (st : TC) : TC :=
  if !st.config.filtersAutoDetect || st.data.isEmpty then st
  else
    { st with
      filterTypes := st.config.columns.foldl (fun types column =>
        match detectFilterTypeFor dp (lookupKey st.config.filterTypesConfig column.field)
            (valuesForField st.data column.field) with
        | some t => setKey types column.field t
        | none => types) st.filterTypes }

/-- Stable insertion of one element w.r.t. a boolean "comes not after"
test: the element is placed before the first position where the test
holds, so elements that compare equal keep their original relative order. -/
def insertLe {α : Type} (le : α → α → Bool) (x : α) : List α → List α
  | [] => [x]
  | y :: ys => if le x y then x :: y :: ys else y :: insertLe le x ys

/-- Stable insertion sort. -/
def insertionSortLe {α : Type} (le : α → α → Bool) : List α → List α
  | [] => []
  | x :: xs => insertLe le x (insertionSortLe le xs)

/-- Model of `Array.prototype.sort(cmp)`: ES2019 requires a stable
comparator sort; we realize it as stable insertion sort on the "cmp ≤ 0"
relation. -/
def jsSortStable {α : Type} (cmp : α → α → Int) (l : List α) : List α :=
  insertionSortLe (fun a b => cmp a b ≤ 0) l

/-- The comparator of `sort(field)` (tablecrafter.js 1394-1402), already
specialized to the direction in effect. -/
def sortComparator (field : String) (ord : String) (a b : Record) : Int :=
  let aVal := a.get field
  let bVal := b.get field
  if aVal == bVal then 0
  else
    let result : Int := if jsLtValue aVal bVal then -1 else 1
    if ord == "asc" then result else -result

/-- Translation of `sort(field)` (tablecrafter.js 1386-1408): toggle or
reset the direction state, stably sort the base collection in place, reset
to page 1. -/
def sort (st : TC) (field : String) : TC :=
  let ord :=
    if st.sortField == some field then (if st.sortOrder == "asc" then "desc" else "asc")
    else "asc"
  { st with
    sortField := some field
    sortOrder := ord
    data := jsSortStable (sortComparator field ord) st.data
    currentPage := 1 }

/-- Translation of `bulkDelete(selectedRows, selectedData)` (tablecrafter.js
1512-1536): when the user confirms, sort the selected indices in descending
order (`(a, b) => b - a`), `splice` each out of the base collection, and
clear the selection set. -/
def bulkDelete (st : TC) (confirmed : Bool) (selectedRows : List Nat) : TC :=
  if !confirmed then st
  else
    let sortedRows := jsSortStable (fun (a b : Nat) => (b : Int) - (a : Int)) selectedRows
    { st with
      data := sortedRows.foldl (fun d index => d.eraseIdx index) st.data
      selectedRows := [] }

/-- The `delete` arm of `performBulkAction` (tablecrafter.js 1481-1507):
no-op when nothing is selected, else bulk delete of `Array.from(selectedRows)`. -/
def performBulkDelete (st : TC) (confirmed : Bool) : TC :=
  if st.selectedRows.isEmpty then st else bulkDelete st confirmed st.selectedRows

/-- The row object `this.data[rowIndex]` (callers pass in-bounds indices). -/
def rowAt (data : List Record) (i : Nat) : Record := (data.get? i).getD []

/-- Cell write `this.data[rowIndex][field] = v`. -/
def updateCell (data : List Record) (i : Nat) (f : String) (v : Value) : List Record :=
  data.set i ((rowAt data i).set f v)

/-- Capture of `editElement.dataset.originalValue = currentValue || ''` at
edit start: DOM dataset entries are strings, so the captured original is
the stringified cell value (empty for falsy cells). -/
def captureOriginal (v : Value) : String := if v.truthy then v.toStr else ""

/-- Translation of `cancelEdit()` (tablecrafter.js 758-767): restore the
displayed text (a DOM effect outside the model) and drop the session; the
record collection is not touched. -/
def cancelEdit (st : TC) : TC :=
  if st.editingCell.isNone then st else { st with editingCell := none }

/-- Translation of `startEdit(event, rowIndex, field)` (tablecrafter.js
632-702): permission gate, no-op when the same cell is already being
edited (DOM-element identity, modelled by row/field), cancel any other
session, then open a session capturing the original value. -/
def startEdit (st : TC) (rowIndex : Nat) (field : String) : TC :=
  if !hasPermission st "edit" (st.data.get? rowIndex) then st
  else if st.editingCell == some ⟨rowIndex, field,
      captureOriginal ((rowAt st.data rowIndex).get field)⟩ then st
  else
    let st1 := if st.editingCell.isSome then cancelEdit st else st
    { st1 with
      editingCell := some ⟨rowIndex, field,
        captureOriginal ((rowAt st.data rowIndex).get field)⟩ }

/-- Translation of `saveEdit(element)` (tablecrafter.js 707-753).  The
element's dataset supplies `rowIndex`, `field`, `originalValue` and its
live value supplies `newValue` (all DOM strings); `remoteOk` is the outcome
of the remote update when `api.baseUrl` is configured.  On remote failure
the in-memory value is reverted to the dataset string and the session ends
through `cancelEdit` with no `onEdit` callback; otherwise `onEdit` fires
and the session is cleared. -/
def saveEdit (st : TC) (rowIndex : Nat) (field : String)
    (originalValue newValue : String) (remoteOk : Bool) : TC :=
  let st1 := { st with data := updateCell st.data rowIndex field (.str newValue) }
  if st.config.apiConfigured && !remoteOk then
    cancelEdit { st1 with data := updateCell st1.data rowIndex field (.str originalValue) }
  else
    let st2 :=
      if st1.config.hasOnEdit then
        { st1 with onEditLog := st1.onEditLog ++ [(rowIndex, field, originalValue, newValue)] }
      else st1
    { st2 with editingCell := none }

/-! Concrete instances used by witnesses and counterexamples. -/

/-- A paginated table (page size 10) whose filtered set is empty. -/
def stPagEmpty : TC := { config := { pagination := true, pageSize := 10 } }

/-- A paginated table (page size 10) holding one record. -/
def stPagOne : TC :=
  { config := { pagination := true, pageSize := 10 }, data := [[("a", .num 1)]] }

/-- Permissions enabled with own-only active, `edit` restricted to
`admin`, and a current user who holds the `admin` role. -/
def stPermAdmin : TC :=
  setCurrentUser
    { config :=
        { permissionsEnabled := true
          ownOnly := true
          permissionRoles := [("edit", ["admin"])] } }
    ⟨.num 1, ["admin"]⟩

/-- A table with a multiselect filter `["A"]` active on field `f` and a
row whose cell is the strict superstring `"AB"`. -/
def stMulti : TC :=
  { config := {}
    data := [[("f", .str "A")], [("f", .str "AB")]]
    filterTypes := [("f", "multiselect")]
    filters := [("f", .arr [.str "A"])] }

/-- A table with one active filter and a registered filter observer. -/
def stObs : TC :=
  { config := { hasOnFilter := true }
    data := [[("n", .str "x")]]
    filters := [("n", .str "x")] }

/-! General-purpose lemmas. -/

theorem mem_setKey {α : Type} (l : List (String × α)) (k : String) (v : α)
    (p : String × α) (hp : p ∈ setKey l k v) : p.2 = v ∨ p ∈ l := by
  induction l with
  | nil => simp [setKey] at hp; simp [hp]
  | cons q rest ih =>
    simp only [setKey] at hp
    by_cases h : q.1 == k
    · simp [h] at hp
      rcases hp with h1 | h1
      · left; rw [h1]
      · right; exact List.mem_cons_of_mem _ h1
    · simp [h] at hp
      rcases hp with h1 | h1
      · right; simp [h1]
      · rcases ih h1 with h2 | h2
        · left; exact h2
        · right; exact List.mem_cons_of_mem _ h2

theorem mem_delKey {α : Type} (l : List (String × α)) (k : String)
    (p : String × α) (hp : p ∈ delKey l k) : p ∈ l := by
  induction l with
  | nil => simp [delKey] at hp
  | cons q rest ih =>
    simp only [delKey] at hp
    by_cases h : q.1 == k
    · simp [h] at hp; exact List.mem_cons_of_mem _ hp
    · simp [h] at hp
      rcases hp with h1 | h1
      · simp [h1]
      · exact List.mem_cons_of_mem _ (ih h1)

/-! Claim C1: total page count. -/

/-- C1 counterexample: with pagination enabled, page size 10 and an empty
filtered set, `getTotalPages` returns `ceil(0 / 10) = 0`, not
`max(1, ceil(0 / 10)) = 1` as the claim states. -/
theorem C1_counterexample :
    getTotalPages stPagEmpty = 0 ∧
    Nat.max 1 (jsCeilDiv (getFilteredData stPagEmpty).length stPagEmpty.config.pageSize) = 1 := by
  constructor <;> rfl

/-- C1 (amended): with pagination enabled and `pageSize > 0`, the total
page count equals `ceil(filteredCount / pageSize)`; this coincides with
`max(1, ceil(filteredCount / pageSize))` whenever the filtered set is
non-empty, but is `0` — not `1` — when the filtered set is empty. -/
theorem C1_getTotalPages_ceil (st : TC)
    (hpag : st.config.pagination = true) (hps : 0 < st.config.pageSize) :
    getTotalPages st = jsCeilDiv (getFilteredData st).length st.config.pageSize ∧
    (0 < (getFilteredData st).length →
      getTotalPages st =
        Nat.max 1 (jsCeilDiv (getFilteredData st).length st.config.pageSize)) ∧
    ((getFilteredData st).length = 0 → getTotalPages st = 0) := by
  have hdef : getTotalPages st = jsCeilDiv (getFilteredData st).length st.config.pageSize := by
    simp [getTotalPages, hpag]
  refine ⟨hdef, ?_, ?_⟩
  · intro hlen
    rw [hdef]
    have h1 : 1 ≤ jsCeilDiv (getFilteredData st).length st.config.pageSize := by
      unfold jsCeilDiv
      rw [Nat.one_le_div_iff hps]
      omega
    exact (Nat.max_eq_right h1).symm
  · intro hlen
    rw [hdef, hlen]
    unfold jsCeilDiv
    exact Nat.div_eq_of_lt (by omega)

/-- C1 witness: one record, page size 10 — one page, matching the
`max(1, ceil ...)` formula. -/
theorem C1_witness :
    0 < (getFilteredData stPagOne).length ∧
    getTotalPages stPagOne =
      Nat.max 1 (jsCeilDiv (getFilteredData stPagOne).length stPagOne.config.pageSize) :=
  ⟨by decide, (C1_getTotalPages_ceil stPagOne (by decide) (by decide)).2.1 (by decide)⟩

/-! Claim C2: permission gate with own-only active but no record/user. -/

/-- C2 counterexample: permissions enabled, own-only active, `edit`
allow-list `["admin"]` (no wildcard), current user with role `admin`, no
record supplied — the claim demands denial, but `hasPermission` returns
`true`: the own-only branch is skipped entirely when `entry` is absent. -/
theorem C2_counterexample :
    stPermAdmin.config.permissionsEnabled = true ∧
    stPermAdmin.config.ownOnly = true ∧
    (permissionsFor stPermAdmin.config "edit").contains "*" = false ∧
    stPermAdmin.userPermissions.any
      (fun role => (permissionsFor stPermAdmin.config "edit").contains role) = true ∧
    hasPermission stPermAdmin "edit" none = true := by
  refine ⟨rfl, rfl, by decide, by decide, by decide⟩

/-- C2 (amended): with permissions enabled and no wildcard in the action's
allow-list, a failing role check denies; but when the role check passes,
the own-only restriction is only applied if both a record and a current
user are present — with no record or no current user, `hasPermission`
returns `true` (allows).  (Denial with no current user set arises only
because the role set is then empty, failing the role check.) -/
theorem C2_ownOnly_needs_entry_and_user (st : TC) (action : String) (entry : Option Record)
    (hen : st.config.permissionsEnabled = true)
    (hwild : (permissionsFor st.config action).contains "*" = false) :
    (st.userPermissions.any
        (fun role => (permissionsFor st.config action).contains role) = false →
      hasPermission st action entry = false) ∧
    (st.userPermissions.any
        (fun role => (permissionsFor st.config action).contains role) = true →
      (entry = none ∨ st.currentUser = none) →
      hasPermission st action entry = true) := by
  constructor
  · intro hrole
    simp only [hasPermission]
    rw [hen, hwild, hrole]
    simp
  · intro hrole hmissing
    simp only [hasPermission]
    rw [hen, hwild, hrole]
    simp only [Bool.not_true, Bool.false_eq_true, if_false, Bool.not_false, if_true]
    by_cases ho : st.config.ownOnly = true
    · rw [ho]
      simp only [if_true]
      rcases hmissing with h | h
      · subst h
        cases st.currentUser <;> rfl
      · rw [h]
        cases entry <;> rfl
    · rw [Bool.not_eq_true] at ho
      rw [ho]
      rfl

/-- C2 witness: the amended theorem applied at the admin-user state with
no record supplied. -/
theorem C2_witness : hasPermission stPermAdmin "edit" none = true :=
  (C2_ownOnly_needs_entry_and_user stPermAdmin "edit" none (by decide) (by decide)).2
    (by decide) (Or.inl rfl)

/-! Claim C5: multiselect filters are exact-match. -/

/-- C5: an active (non-empty) multiselect filter passes a row exactly when
the row's cell value is an element of the filter array (JS
`Array.prototype.includes` — exact `===` membership, no substring
containment); and in a state whose only filter is that multiselect filter
(with filtering on), the filtered data is exactly the permission-visible
rows whose cell is an element of the array. -/
theorem C5_multiselect_exact (st : TC) (field : String) (xs : List Value) (row : Record)
    (htype : filterTypeOf st.filterTypes field = "multiselect")
    (hne : xs ≠ []) :
    filterEntryPasses st.filterTypes row field (.arr xs) = xs.contains (row.get field) ∧
    (st.config.filterable = true → st.filters = [(field, .arr xs)] →
      getFilteredData st =
        (getPermissionFilteredData st).filter (fun r => xs.contains (Record.get r field))) := by
  have hpass : filterEntryPasses st.filterTypes row field (.arr xs) =
      xs.contains (row.get field) := by
    simp [filterEntryPasses, RawFilter.truthy, RawFilter.isArr, RawFilter.arrEmpty, hne, htype]
  refine ⟨hpass, ?_⟩
  intro hfil hfs
  simp [getFilteredData, hfil, hfs]
  apply List.filter_congr
  intro r hr
  simp [filterEntryPasses, RawFilter.truthy, RawFilter.isArr, RawFilter.arrEmpty, hne, htype]

/-- C5 witness: the filter `["A"]` excludes a row whose cell is `"AB"`
and keeps the row whose cell is `"A"`. -/
theorem C5_witness :
    filterEntryPasses stMulti.filterTypes [("f", Value.str "AB")] "f"
      (.arr [.str "A"]) = false ∧
    getFilteredData stMulti = [[("f", Value.str "A")]] := by
  have h := C5_multiselect_exact stMulti "f" [.str "A"] [("f", Value.str "AB")]
    (by decide) (by decide)
  exact ⟨by rw [h.1]; decide, by rw [h.2 rfl rfl]; decide⟩

/-! Claim C10: clearFilters never fires the filter observer. -/

/-- C10: `clearFilters` empties the filter mapping and resets the page to
1 but leaves the filter-observer log untouched (it never invokes
`onFilter`), whereas `setFilter` with a registered observer always appends
exactly one invocation. -/
theorem C10_clearFilters_silent (st : TC) :
    (clearFilters st).filters = [] ∧
    (clearFilters st).currentPage = 1 ∧
    (clearFilters st).onFilterLog = st.onFilterLog ∧
    (st.config.hasOnFilter = true → ∀ f v,
      ((setFilter st f v).onFilterLog).length = st.onFilterLog.length + 1) := by
  refine ⟨rfl, rfl, rfl, ?_⟩
  intro hobs f v
  simp [setFilter, hobs]

/-- C10 witness: clearing leaves the observer log alone even though an
observer is registered and a filter was active; setting a filter appends
one observer invocation. -/
theorem C10_witness :
    (clearFilters stObs).onFilterLog = stObs.onFilterLog ∧
    ((setFilter stObs "n" (.str "y")).onFilterLog).length = stObs.onFilterLog.length + 1 := by
  have h := C10_clearFilters_silent stObs
  exact ⟨h.2.2.1, h.2.2.2 (by decide) "n" (.str "y")⟩

/-! Claim C3: setFilter normalization of vacuous values. -/

/-- A filter value free of the vacuous shapes that `setFilter` deletes:
truthy and not an empty array. -/
def notVacuousStored (filters : List (String × RawFilter)) : Prop :=
  ∀ p ∈ filters, p.2.truthy = true ∧ p.2.arrEmpty = false

/-- An empty table with no filters, for the C3 instances. -/
def stPlain : TC := { config := {} }

/-- C3 counterexample: `setFilter(field, {})` does **not** delete the
field's entry — an empty object is truthy, is not a string and is not an
array, so it is stored, and the filter mapping then holds a vacuous
filter value, contradicting the claimed invariant. -/
theorem C3_counterexample :
    (setFilter stPlain "a" (.obj [])).filters = [("a", RawFilter.obj [])] := by decide

/-- Normalization step of `setFilter`, extracted: the updated filter
mapping deletes the key exactly when the raw value is falsy, an
all-whitespace string, or an empty array. -/
theorem setFilter_filters (st : TC) (field : String) (v : RawFilter) :
    (setFilter st field v).filters =
      if (!v.truthy ||
          (match v with | .str s => jsTrim s == "" | _ => false) ||
          (match v with | .arr xs => xs.isEmpty | _ => false)) = true
      then delKey st.filters field
      else setKey st.filters field
        (match v with | .str s => RawFilter.str (jsTrim s) | v => v) := by
  simp only [setFilter, apply_ite TC.filters]
  split <;> rfl

/-- C3 (amended): `setFilter` deletes the field's entry for the empty (or
all-whitespace) string, the empty array, and `null`/`undefined` — but an
object with no keys is truthy and gets stored, so the no-vacuous-filters
invariant holds only in the weaker form "stored values are truthy and
never an empty array".  Applying a filter mapping with no entries returns
every permission-visible row. -/
theorem C3_setFilter_normalization (st : TC) (field : String) :
    (∀ s, jsTrim s = "" → (setFilter st field (.str s)).filters = delKey st.filters field) ∧
    ((setFilter st field (.arr [])).filters = delKey st.filters field) ∧
    ((setFilter st field .nullV).filters = delKey st.filters field) ∧
    ((setFilter st field (.obj [])).filters = setKey st.filters field (.obj [])) ∧
    (∀ v, notVacuousStored st.filters → notVacuousStored (setFilter st field v).filters) ∧
    (st.filters = [] → getFilteredData st = getPermissionFilteredData st) := by
  refine ⟨?_, ?_, ?_, ?_, ?_, ?_⟩
  · intro s hs
    rw [setFilter_filters]
    simp [hs]
  · rw [setFilter_filters]; simp [RawFilter.truthy]
  · rw [setFilter_filters]; simp [RawFilter.truthy]
  · rw [setFilter_filters]; simp [RawFilter.truthy]
  · intro v hinv
    by_cases hvac : (!v.truthy ||
        (match v with | .str s => jsTrim s == "" | _ => false) ||
        (match v with | .arr xs => xs.isEmpty | _ => false)) = true
    · intro p hp
      rw [setFilter_filters, if_pos hvac] at hp
      exact hinv p (mem_delKey _ _ _ hp)
    · intro p hp
      rw [setFilter_filters, if_neg hvac] at hp
      rcases mem_setKey _ _ _ _ hp with h | h
      · rw [Bool.or_eq_true, Bool.or_eq_true] at hvac
        push_neg at hvac
        cases v with
        | str s =>
          rw [h]
          have hne : ¬(jsTrim s == "") = true := by tauto
          constructor
          · simp only [RawFilter.truthy, ne_eq]
            simpa using hne
          · rfl
        | arr xs =>
          rw [h]
          have hne : ¬(xs.isEmpty = true) := by tauto
          exact ⟨rfl, by simpa [RawFilter.arrEmpty] using hne⟩
        | obj pairs => rw [h]; exact ⟨rfl, rfl⟩
        | nullV => exact absurd rfl hvac.1.1
      · exact hinv p h
  · intro hemp
    simp [getFilteredData, hemp]

/-- C3 witness: the amended theorem applied at an empty table — the
whitespace string and the empty array are deleted, the empty object is
stored, and an empty mapping filters nothing. -/
theorem C3_witness :
    (setFilter stPlain "a" (.str "  ")).filters = delKey stPlain.filters "a" ∧
    (setFilter stPlain "a" (.arr [])).filters = delKey stPlain.filters "a" ∧
    getFilteredData stPlain = getPermissionFilteredData stPlain := by
  have h := C3_setFilter_normalization stPlain "a"
  exact ⟨h.1 "  " (by decide), h.2.1, h.2.2.2.2.2 rfl⟩

/-! Claim C4: CSV field escaping and row joining. -/

/-- Columns and data for the CSV witness (the spec's round-trip vector). -/
def stCsv : TC :=
  { config :=
      { columns := [{ field := "id", label := "id" }, { field := "name", label := "name" },
          { field := "notes", label := "notes" }] }
    data := [[("id", .num 1), ("name", .str "John \"Johnny\" Doe"),
      ("notes", .str "Has a, comma")]] }

/-- C4: `escapeCSVField` yields the two-character `""` for null/undefined;
wraps any value containing a comma, newline or double quote in quotes with
internal quotes doubled; emits bare any other value whose string form
passes both JS numeric parses (`!isNaN(s) && !isNaN(parseFloat(s))` — "parses
entirely as a number"); and quotes everything else.  `exportToCSV` joins
the header row and the data rows with single newlines (no trailing
newline). -/
theorem C4_escapeCSVField_cases (v : Value) (st : TC) :
    (escapeCSVField .null = "\"\"" ∧ escapeCSVField .undefV = "\"\"") ∧
    (v ≠ .null → v ≠ .undefV →
      ((jsIncludes v.toStr "," || jsIncludes v.toStr "\n" || jsIncludes v.toStr "\"") = true →
        escapeCSVField v = "\"" ++ dupQuotes v.toStr ++ "\"") ∧
      ((jsIncludes v.toStr "," || jsIncludes v.toStr "\n" || jsIncludes v.toStr "\"") = false →
        ((jsStringToNumber v.toStr != .nan && jsParseFloat v.toStr != .nan) = true →
          escapeCSVField v = v.toStr) ∧
        ((jsStringToNumber v.toStr != .nan && jsParseFloat v.toStr != .nan) = false →
          escapeCSVField v = "\"" ++ v.toStr ++ "\""))) ∧
    (exportToCSV st).2 = joinSep "\n"
      (joinSep "," ((getExportableColumns st).map (fun c => c.label)) ::
        (getExportableData st).map (fun row =>
          joinSep "," ((getExportableColumns st).map
            (fun column => escapeCSVField (Record.get row column.field))))) := by
  refine ⟨⟨rfl, rfl⟩, ?_, ?_⟩
  · intro hnull hundef
    have hne : (v == .null || v == .undefV) = false := by
      cases v <;> simp_all
    refine ⟨?_, ?_⟩
    · intro hsp
      simp only [escapeCSVField, hne, Bool.false_eq_true, if_false]
      rw [hsp]
      simp
    · intro hsp
      refine ⟨?_, ?_⟩
      · intro hnum
        simp only [escapeCSVField, hne, Bool.false_eq_true, if_false]
        rw [hsp, hnum]
        simp
      · intro hnum
        simp only [escapeCSVField, hne, Bool.false_eq_true, if_false]
        rw [hsp, hnum]
        simp
  · rfl

/-- C4 witness: the spec's vectors — a comma-bearing value and a
quote-bearing value get quoted/doubled, a numeric value is emitted bare, a
plain word is quoted, and the full export of the round-trip record is the
header plus one data row joined by a single newline. -/
theorem C4_witness :
    escapeCSVField (Value.str "Has a, comma") = "\"Has a, comma\"" ∧
    escapeCSVField (Value.str "John \"Johnny\" Doe") = "\"John \"\"Johnny\"\" Doe\"" ∧
    escapeCSVField (Value.num 1) = "1" ∧
    escapeCSVField (Value.str "hello") = "\"hello\"" ∧
    (exportToCSV stCsv).2 = "id,name,notes\n1,\"John \"\"Johnny\"\" Doe\",\"Has a, comma\"" := by
  refine ⟨?_, ?_, ?_, ?_, ?_⟩
  · rw [(C4_escapeCSVField_cases (Value.str "Has a, comma") stPlain).2.1 (by decide)
      (by decide) |>.1 (by decide)]
    decide
  · rw [(C4_escapeCSVField_cases (Value.str "John \"Johnny\" Doe") stPlain).2.1 (by decide)
      (by decide) |>.1 (by decide)]
    decide
  · rw [(C4_escapeCSVField_cases (Value.num 1) stPlain).2.1 (by decide)
      (by decide) |>.2 (by decide) |>.1 (by decide)]
    decide
  · rw [(C4_escapeCSVField_cases (Value.str "hello") stPlain).2.1 (by decide)
      (by decide) |>.2 (by decide) |>.2 (by decide)]
    decide
  · rw [(C4_escapeCSVField_cases (Value.num 0) stCsv).2.2]
    decide

/-! Claim C7: all-or-nothing date detection on the first five samples. -/

/-- A `Date.parse` success model matching the explicit ISO date parser. -/
def dpIso (s : String) : Bool := jsDateValue (.str s) != .nan

/-- Records whose field `d` holds four ISO dates and one non-date word. -/
def dataFifthNonDate : List Record :=
  [[("d", .str "2024-01-01")], [("d", .str "2024-01-02")], [("d", .str "2024-01-03")],
    [("d", .str "2024-01-04")], [("d", .str "hello")]]

/-- C7: for a column with no caller-declared filter type and at least one
non-null value, the detector classifies `daterange` exactly when every one
of the first five non-null values matches a date-literal pattern or parses
as a generic date (for any host `Date.parse` behavior `dp`); one failing
sample among the first five forces the non-date fallback chain
(numeric → multiselect → text). -/
theorem C7_date_detection (dp : String → Bool) (data : List Record) (field : String)
    (hne : valuesForField data field ≠ []) :
    (detectFilterTypeFor dp none (valuesForField data field) = some "daterange" ↔
      ∀ v ∈ (valuesForField data field).take 5,
        (matchesDatePattern v.toStr || dp v.toStr) = true) ∧
    ((∃ v ∈ (valuesForField data field).take 5,
        matchesDatePattern v.toStr = false ∧ dp v.toStr = false) →
      detectFilterTypeFor dp none (valuesForField data field) =
        some (if isNumericField (valuesForField data field) then "numberrange"
          else if (dedupFirst (valuesForField data field)).length ≤ 20 &&
              (dedupFirst (valuesForField data field)).length > 1 then "multiselect"
          else "text") ∧
      detectFilterTypeFor dp none (valuesForField data field) ≠ some "daterange") := by
  set values := valuesForField data field with hv
  have hemp : values.isEmpty = false := List.isEmpty_eq_false.mpr hne
  have hfallback : (if isNumericField values then "numberrange"
      else if (dedupFirst values).length ≤ 20 && (dedupFirst values).length > 1 then
        "multiselect"
      else "text") ≠ "daterange" := by
    split
    · decide
    · split <;> decide
  constructor
  · constructor
    · intro hdet
      by_cases hdate : isDateField dp values = true
      · intro v hmem
        unfold isDateField at hdate
        rw [List.all_eq_true] at hdate
        exact hdate v hmem
      · exfalso
        rw [Bool.not_eq_true] at hdate
        simp only [detectFilterTypeFor, hemp, Bool.false_eq_true, if_false, hdate] at hdet
        exact hfallback (Option.some_injective _ hdet)
    · intro hall
      have hdate : isDateField dp values = true := by
        unfold isDateField
        rw [List.all_eq_true]
        exact hall
      simp [detectFilterTypeFor, hemp, hdate]
  · intro hfail
    have hdate : isDateField dp values = false := by
      unfold isDateField
      obtain ⟨v, hmem, hpat, hdp⟩ := hfail
      rw [List.all_eq_false]
      exact ⟨v, hmem, by simp [hpat, hdp]⟩
    constructor
    · simp [detectFilterTypeFor, hemp, hdate]
    · simp only [detectFilterTypeFor, hemp, Bool.false_eq_true, if_false, hdate]
      intro hcontra
      exact hfallback (Option.some_injective _ hcontra)

/-- C7 witness: five samples whose fifth is the non-date `"hello"` — the
date test fails as a whole and the field falls through to the fallback
chain, landing on `multiselect` (five distinct non-numeric strings). -/
theorem C7_witness :
    detectFilterTypeFor dpIso none (valuesForField dataFifthNonDate "d") =
      some "multiselect" ∧
    detectFilterTypeFor dpIso none (valuesForField dataFifthNonDate "d") ≠
      some "daterange" := by
  have h := (C7_date_detection dpIso dataFifthNonDate "d" (by decide)).2 (by decide)
  refine ⟨?_, h.2⟩
  rw [h.1]
  decide

/-! Claim C9: failed remote commit rolls back through the cancel path. -/

theorem Record.get_set_self (rec : Record) (f : String) (v : Value) :
    Record.get (Record.set rec f v) f = v := by
  induction rec with
  | nil => simp [Record.set, Record.get]
  | cons p rest ih =>
    obtain ⟨a, b⟩ := p
    by_cases h : a == f
    · simp [Record.set, Record.get, h]
    · simpa [Record.set, Record.get, h] using ih

theorem Record.set_set (rec : Record) (f : String) (v w : Value) :
    Record.set (Record.set rec f v) f w = Record.set rec f w := by
  induction rec with
  | nil => simp [Record.set]
  | cons p rest ih =>
    obtain ⟨a, b⟩ := p
    by_cases h : a == f
    · simp [Record.set, h]
    · simp [Record.set, h, ih]

theorem Record.set_of_get (rec : Record) (f : String) (v : Value)
    (hget : Record.get rec f = v) (hv : v ≠ .undefV) : Record.set rec f v = rec := by
  induction rec with
  | nil => simp [Record.get] at hget; exact absurd hget.symm hv
  | cons p rest ih =>
    obtain ⟨a, b⟩ := p
    by_cases h : a == f
    · simp only [Record.get, h, if_true] at hget
      simp only [Record.set, h, if_true]
      rw [hget]
    · simp only [Record.get, h, Bool.false_eq_true, if_false] at hget
      simp only [Record.set, h, Bool.false_eq_true, if_false]
      rw [ih hget]

theorem rowAt_set_self (data : List Record) (i : Nat) (row : Record)
    (hi : i < data.length) : rowAt (data.set i row) i = row := by
  simp [rowAt, List.getElem?_set_self', hi]

theorem list_set_rowAt_self (data : List Record) (i : Nat) :
    data.set i (rowAt data i) = data := by
  induction data generalizing i with
  | nil => rfl
  | cons d rest ih =>
    cases i with
    | zero => simp [rowAt]
    | succ j => simpa [rowAt, List.set] using ih j

theorem updateCell_updateCell (data : List Record) (i : Nat) (f : String) (v w : Value)
    (hi : i < data.length) :
    updateCell (updateCell data i f v) i f w = updateCell data i f w := by
  unfold updateCell
  rw [rowAt_set_self _ _ _ hi, List.set_set, Record.set_set]

theorem updateCell_same (data : List Record) (i : Nat) (f : String) (v : Value)
    (hget : Record.get (rowAt data i) f = v) (hv : v ≠ .undefV) :
    updateCell data i f v = data := by
  unfold updateCell
  rw [Record.set_of_get _ _ _ hget hv, list_set_rowAt_self]

/-- A table over a remote API whose edited cell holds the number 5. -/
def stEditNum : TC :=
  startEdit { config := { apiConfigured := true }, data := [[("a", .num 5)]] } 0 "a"

/-- A table over a remote API whose edited cell holds the string `"x"`. -/
def stEditStr : TC :=
  startEdit { config := { apiConfigured := true }, data := [[("a", .str "x")]] } 0 "a"

/-- C9 counterexample: editing a **numeric** cell (value `5`), a failed
remote commit leaves the cell holding the string `"5"` (the DOM dataset
capture), while a plain cancel leaves the untouched number `5` — the
post-failure state does not equal the post-cancel state, refuting the
claim's final equality. -/
theorem C9_counterexample :
    stEditNum.editingCell = some ⟨0, "a", "5"⟩ ∧
    (saveEdit stEditNum 0 "a" "5" "7" false).data = [[("a", Value.str "5")]] ∧
    (cancelEdit stEditNum).data = [[("a", Value.num 5)]] ∧
    (saveEdit stEditNum 0 "a" "5" "7" false).data ≠ (cancelEdit stEditNum).data := by
  decide

/-- Shape of the failed-commit path: revert the cell to the dataset
string and pass through `cancelEdit`. -/
theorem saveEdit_fail_eq (st : TC) (r : Nat) (f : String) (ov nv : String)
    (hapi : st.config.apiConfigured = true) (hnn : st.editingCell.isNone = false) :
    saveEdit st r f ov nv false =
      { st with
        data := updateCell (updateCell st.data r f (.str nv)) r f (.str ov)
        editingCell := none } := by
  simp [saveEdit, hapi, cancelEdit, hnn]

/-- C9 (amended): with a remote API configured and the session opened by
`startEdit` on an in-bounds cell, a failed commit (1) leaves the cell
holding the **string** captured at edit start, (2) fires no edit-observer
callback, (3) ends the session through the cancel path, and (4) produces
exactly the overall state a cancel would have produced **whenever the
original cell value was a string equal to its capture** — for non-string
cells the rollback stores the stringified capture, so the two states
differ at that cell (hence the counterexample). -/
theorem C9_failed_commit_rollback (st : TC) (r : Nat) (f : String) (ov nv : String)
    (hapi : st.config.apiConfigured = true)
    (hr : r < st.data.length)
    (hsess : st.editingCell = some ⟨r, f, ov⟩)
    (hov : ov = captureOriginal (Record.get (rowAt st.data r) f)) :
    (Record.get (rowAt (saveEdit st r f ov nv false).data r) f = .str ov) ∧
    ((saveEdit st r f ov nv false).onEditLog = st.onEditLog) ∧
    ((saveEdit st r f ov nv false).editingCell = none) ∧
    ((saveEdit st r f ov nv false).data = updateCell st.data r f (.str ov)) ∧
    (Record.get (rowAt st.data r) f = .str ov →
      saveEdit st r f ov nv false = cancelEdit st) := by
  have hnn : st.editingCell.isNone = false := by rw [hsess]; rfl
  have hse := saveEdit_fail_eq st r f ov nv hapi hnn
  have hdata : (saveEdit st r f ov nv false).data = updateCell st.data r f (.str ov) := by
    rw [hse]
    exact updateCell_updateCell _ _ _ _ _ hr
  refine ⟨?_, ?_, ?_, hdata, ?_⟩
  · rw [hdata]
    unfold updateCell
    rw [rowAt_set_self _ _ _ hr, Record.get_set_self]
  · rw [hse]
  · rw [hse]
  · intro hsame
    have hno : updateCell (updateCell st.data r f (.str nv)) r f (.str ov) = st.data := by
      rw [updateCell_updateCell _ _ _ _ _ hr]
      exact updateCell_same _ _ _ _ hsame (by simp)
    rw [hse, hno]
    simp [cancelEdit, hnn]

/-- C9 witness: the amended theorem applied to the string-cell table — a
failed commit there coincides exactly with a cancel. -/
theorem C9_witness :
    (saveEdit stEditStr 0 "a" "x" "y" false).onEditLog = stEditStr.onEditLog ∧
    saveEdit stEditStr 0 "a" "x" "y" false = cancelEdit stEditStr := by
  have h := C9_failed_commit_rollback stEditStr 0 "a" "x" "y"
    (by decide) (by decide) (by decide) (by decide)
  exact ⟨h.2.1, h.2.2.2.2 (by decide)⟩

/-! Properties of the stable-sort model, shared by the sort and
bulk-delete claims. -/

theorem mem_insertLe {α : Type} (le : α → α → Bool) (x : α) (l : List α) (y : α) :
    y ∈ insertLe le x l ↔ y = x ∨ y ∈ l := by
  induction l with
  | nil => simp [insertLe]
  | cons a t ih =>
    by_cases h : le x a
    · simp [insertLe, h]
    · simp [insertLe, h, ih]
      tauto

theorem perm_insertLe {α : Type} (le : α → α → Bool) (x : α) (l : List α) :
    (insertLe le x l).Perm (x :: l) := by
  induction l with
  | nil => simp [insertLe]
  | cons a t ih =>
    by_cases h : le x a
    · simp [insertLe, h]
    · simp only [insertLe, h, Bool.false_eq_true, if_false]
      exact (List.Perm.cons a ih).trans (List.Perm.swap x a t)

theorem perm_insertionSortLe {α : Type} (le : α → α → Bool) (l : List α) :
    (insertionSortLe le l).Perm l := by
  induction l with
  | nil => simp [insertionSortLe]
  | cons a t ih =>
    exact (perm_insertLe le a _).trans (List.Perm.cons a ih)

theorem pairwise_insertLe {α : Type} (le : α → α → Bool) (x : α) (s : List α)
    (hs : List.Pairwise (fun a b => le a b = true) s)
    (h1 : ∀ y ∈ s, le x y = false → le y x = true)
    (h2 : ∀ y ∈ s, ∀ z ∈ s, le x y = true → le y z = true → le x z = true) :
    List.Pairwise (fun a b => le a b = true) (insertLe le x s) := by
  induction s with
  | nil => simp [insertLe]
  | cons a t ih =>
    rcases List.pairwise_cons.mp hs with ⟨ha, ht⟩
    by_cases h : le x a
    · simp only [insertLe, h, if_true]
      refine List.pairwise_cons.mpr ⟨?_, hs⟩
      intro z hz
      rcases List.mem_cons.mp hz with hz | hz
      · rw [hz]; exact h
      · exact h2 a (by simp) z (List.mem_cons_of_mem a hz) h (ha z hz)
    · simp only [insertLe, h, Bool.false_eq_true, if_false]
      refine List.pairwise_cons.mpr ⟨?_, ?_⟩
      · intro z hz
        rcases (mem_insertLe le x t z).mp hz with hz | hz
        · subst hz
          exact h1 a (by simp) (by simpa using h)
        · exact ha z hz
      · exact ih ht (fun y hy => h1 y (List.mem_cons_of_mem a hy))
          (fun y hy z hz => h2 y (List.mem_cons_of_mem a hy) z (List.mem_cons_of_mem a hz))

theorem sorted_insertionSortLe {α : Type} (le : α → α → Bool) (l : List α)
    (htot : ∀ a ∈ l, ∀ b ∈ l, le a b = false → le b a = true)
    (htrans : ∀ a ∈ l, ∀ b ∈ l, ∀ c ∈ l, le a b = true → le b c = true → le a c = true) :
    List.Pairwise (fun a b => le a b = true) (insertionSortLe le l) := by
  induction l with
  | nil => simp [insertionSortLe]
  | cons a t ih =>
    have hsub : ∀ y, y ∈ insertionSortLe le t → y ∈ t := fun y hy =>
      (perm_insertionSortLe le t).mem_iff.mp hy
    refine pairwise_insertLe le a _ ?_ ?_ ?_
    · exact ih
        (fun x hx y hy =>
          htot x (List.mem_cons_of_mem a hx) y (List.mem_cons_of_mem a hy))
        (fun x hx y hy z hz =>
          htrans x (List.mem_cons_of_mem a hx) y (List.mem_cons_of_mem a hy) z
            (List.mem_cons_of_mem a hz))
    · intro y hy
      exact htot a (by simp) y (List.mem_cons_of_mem a (hsub y hy))
    · intro y hy z hz
      exact htrans a (by simp) y (List.mem_cons_of_mem a (hsub y hy)) z
        (List.mem_cons_of_mem a (hsub z hz))

/-- Upgrade a sorted chain to a strict one when a key function is
injective across the list. -/
theorem pairwise_strict_of_nodup_keys {α β : Type} (key : α → β) (l : List α)
    (P Q : α → α → Prop) (hnd : (l.map key).Nodup) (hp : List.Pairwise P l)
    (himp : ∀ a ∈ l, ∀ b ∈ l, key a ≠ key b → P a b → Q a b) : List.Pairwise Q l := by
  induction l with
  | nil => exact List.Pairwise.nil
  | cons a t ih =>
    rcases List.pairwise_cons.mp hp with ⟨ha, ht⟩
    rw [List.map_cons, List.nodup_cons] at hnd
    obtain ⟨hka, hkt⟩ := hnd
    refine List.pairwise_cons.mpr
      ⟨?_, ih hkt ht (fun x hx y hy => himp x (List.mem_cons_of_mem a hx) y
        (List.mem_cons_of_mem a hy))⟩
    intro b hb
    refine himp a (by simp) b (List.mem_cons_of_mem a hb) ?_ (ha b hb)
    intro hcontra
    exact hka (hcontra ▸ List.mem_map_of_mem key hb)

/-! Claim C8: confirmed bulk delete. -/

/-- Rows kept by position: `keepUnselected sel k l` drops exactly the
elements of `l` whose absolute position (starting at `k`) is in `sel` —
the specification-side meaning of "removes exactly the rows originally at
the selected indices". -/
def keepUnselected {α : Type} (sel : List Nat) : Nat → List α → List α
  | _, [] => []
  | k, x :: xs =>
    if sel.contains k then keepUnselected sel (k + 1) xs
    else x :: keepUnselected sel (k + 1) xs

theorem keepUnselected_eq_enum {α : Type} (sel : List Nat) (k : Nat) (l : List α) :
    keepUnselected sel k l =
      ((List.enumFrom k l).filter (fun p => !(sel.contains p.1))).map Prod.snd := by
  induction l generalizing k with
  | nil => rfl
  | cons x xs ih =>
    by_cases h : k ∈ sel
    · simp [keepUnselected, h, List.enumFrom, ih]
    · simp [keepUnselected, h, List.enumFrom, ih]

theorem keepUnselected_all_out {α : Type} (sel : List Nat) (k : Nat) (l : List α)
    (h : ∀ p, k ≤ p → sel.contains p = false) : keepUnselected sel k l = l := by
  induction l generalizing k with
  | nil => rfl
  | cons x xs ih =>
    rw [keepUnselected, h k (le_refl k)]
    simp only [Bool.false_eq_true, if_false]
    rw [ih (k + 1) (fun p hp => h p (by omega))]

theorem keepUnselected_congr {α : Type} (sel₁ sel₂ : List Nat) (k : Nat) (l : List α)
    (h : ∀ p, sel₁.contains p = sel₂.contains p) :
    keepUnselected sel₁ k l = keepUnselected sel₂ k l := by
  induction l generalizing k with
  | nil => rfl
  | cons x xs ih =>
    rw [keepUnselected, keepUnselected, h k, ih (k + 1)]

theorem keepUnselected_append {α : Type} (sel : List Nat) (k : Nat) (A B : List α) :
    keepUnselected sel k (A ++ B) =
      keepUnselected sel k A ++ keepUnselected sel (k + A.length) B := by
  induction A generalizing k with
  | nil => simp [keepUnselected]
  | cons x xs ih =>
    have hlen : k + 1 + xs.length = k + (x :: xs).length := by
      simp only [List.length_cons]
      omega
    by_cases h : sel.contains k
    · simp only [List.cons_append, keepUnselected, h, if_true, List.append_eq]
      rw [ih (k + 1), hlen]
    · simp only [List.cons_append, keepUnselected, h, Bool.false_eq_true, if_false,
        List.append_eq]
      rw [ih (k + 1), hlen]

theorem eraseIdx_append_left {α : Type} (A B : List α) (j : Nat) (hj : j < A.length) :
    (A ++ B).eraseIdx j = A.eraseIdx j ++ B := by
  induction A generalizing j with
  | nil => simp at hj
  | cons x xs ih =>
    cases j with
    | zero => simp [List.eraseIdx]
    | succ j' =>
      simp only [List.cons_append, List.eraseIdx, List.append_eq]
      rw [ih j' (by simpa using hj)]

theorem removeAll_append {α : Type} (idxs : List Nat) (A B : List α)
    (hsort : List.Pairwise (fun a b => a > b) idxs)
    (hval : ∀ j ∈ idxs, j < A.length) :
    idxs.foldl (fun d i => d.eraseIdx i) (A ++ B) =
      idxs.foldl (fun d i => d.eraseIdx i) A ++ B := by
  induction idxs generalizing A with
  | nil => rfl
  | cons j rest ih =>
    rcases List.pairwise_cons.mp hsort with ⟨hj, hrest⟩
    have hjA : j < A.length := hval j (by simp)
    simp only [List.foldl_cons]
    rw [eraseIdx_append_left A B j hjA]
    refine ih (A.eraseIdx j) hrest ?_
    intro i hi
    have h1 : i < j := hj i hi
    have h2 : (A.eraseIdx j).length = A.length - 1 := by
      rw [List.length_eraseIdx]
      simp [hjA]
    omega

theorem removeDescending_eq_keep {α : Type} (idxs : List Nat) (data : List α)
    (hsort : List.Pairwise (fun a b => a > b) idxs)
    (hval : ∀ i ∈ idxs, i < data.length) :
    idxs.foldl (fun d i => d.eraseIdx i) data = keepUnselected idxs 0 data := by
  induction idxs generalizing data with
  | nil =>
    rw [List.foldl_nil, keepUnselected_all_out]
    intro p _
    rfl
  | cons i rest ih =>
    rcases List.pairwise_cons.mp hsort with ⟨hi, hrest⟩
    have hilen : i < data.length := hval i (by simp)
    obtain ⟨A, x, B, hAB, hAlen⟩ :
        ∃ A x B, data = A ++ x :: B ∧ A.length = i := by
      refine ⟨data.take i, data[i], data.drop (i + 1), ?_, ?_⟩
      · conv_lhs => rw [← List.take_append_drop i data,
          ← List.getElem_cons_drop data i hilen]
      · simp [List.length_take]
        omega
    subst hAB
    have herase : (A ++ x :: B).eraseIdx i = A ++ B := by
      rw [← hAlen, List.eraseIdx_append_of_length_le (le_refl A.length)]
      simp [List.eraseIdx]
    simp only [List.foldl_cons]
    rw [herase]
    have hrestA : ∀ j ∈ rest, j < A.length := by
      intro j hj
      rw [hAlen]
      exact hi j hj
    rw [removeAll_append rest A B hrest hrestA]
    rw [ih A hrest hrestA]
    rw [keepUnselected_append]
    have hA : keepUnselected (i :: rest) 0 A = keepUnselected rest 0 A := by
      rw [keepUnselected_eq_enum, keepUnselected_eq_enum]
      congr 1
      apply List.filter_congr
      intro p hp
      have hplt : p.1 < i := by
        have := List.fst_lt_add_of_mem_enumFrom hp
        simp [hAlen] at this
        omega
      simp only [List.contains_cons]
      have : (p.1 == i) = false := by
        simp
        omega
      rw [this]
      simp
    rw [hA, hAlen, Nat.zero_add]
    have hxB : keepUnselected (i :: rest) i (x :: B) = B := by
      rw [keepUnselected]
      have hc : (i :: rest).contains i = true := by simp
      rw [hc]
      simp only [if_true]
      apply keepUnselected_all_out
      intro p hp
      have hpi : p ≠ i := by omega
      have hpr : p ∉ rest := by
        intro hmem
        have := hi p hmem
        omega
      simp [hpi, hpr]
    rw [hxB]

/-- Five distinct rows with rows 1 and 3 selected. -/
def stBulk : TC :=
  { config := {}
    data := [[("i", .num 0)], [("i", .num 1)], [("i", .num 2)], [("i", .num 3)],
      [("i", .num 4)]]
    selectedRows := [1, 3] }

/-- C8: a confirmed bulk delete over a non-empty selection of distinct
valid base-collection indices removes exactly the rows originally at the
selected positions (the surviving data is the positional filter of the
original collection) and leaves the selection set empty.  The removals are
performed in descending index order inside `bulkDelete`, which is what
makes the positional characterization hold. -/
theorem C8_bulkDelete_exact (st : TC)
    (hnd : st.selectedRows.Nodup)
    (hval : ∀ i ∈ st.selectedRows, i < st.data.length)
    (hne : st.selectedRows ≠ []) :
    (performBulkDelete st true).data =
      (st.data.enum.filter (fun p => !(st.selectedRows.contains p.1))).map Prod.snd ∧
    (performBulkDelete st true).selectedRows = [] := by
  have hisEmpty : st.selectedRows.isEmpty = false := List.isEmpty_eq_false.mpr hne
  have hPBD : performBulkDelete st true = bulkDelete st true st.selectedRows := by
    simp [performBulkDelete, hisEmpty]
  have hBD : bulkDelete st true st.selectedRows =
      { st with
        data := (jsSortStable (fun (a b : Nat) => (b : Int) - (a : Int))
          st.selectedRows).foldl (fun d index => d.eraseIdx index) st.data
        selectedRows := [] } := by
    simp [bulkDelete]
  set sorted := jsSortStable (fun (a b : Nat) => (b : Int) - (a : Int)) st.selectedRows
    with hsortdef
  have hsorted_eq : sorted =
      insertionSortLe (fun a b : Nat => decide ((b : Int) - (a : Int) ≤ 0))
        st.selectedRows := rfl
  have hperm : sorted.Perm st.selectedRows := by
    rw [hsorted_eq]
    exact perm_insertionSortLe _ _
  have hsorted : List.Pairwise
      (fun a b : Nat => decide ((b : Int) - (a : Int) ≤ 0) = true) sorted := by
    rw [hsorted_eq]
    apply sorted_insertionSortLe
    · intro a _ b _ hab
      simp only [decide_eq_false_iff_not, not_le] at hab
      simp only [decide_eq_true_eq]
      omega
    · intro a _ b _ c _ hab hbc
      simp only [decide_eq_true_eq] at hab hbc ⊢
      omega
  have hnodup : sorted.Nodup := hperm.symm.nodup hnd
  have hstrict : List.Pairwise (fun a b : Nat => a > b) sorted := by
    refine pairwise_strict_of_nodup_keys id sorted _ _ (by simpa using hnodup) hsorted ?_
    intro a _ b _ hneq hle
    simp only [decide_eq_true_eq] at hle
    simp only [id] at hneq
    omega
  have hvalS : ∀ i ∈ sorted, i < st.data.length := fun i hi =>
    hval i (hperm.mem_iff.mp hi)
  have hmain := removeDescending_eq_keep sorted st.data hstrict hvalS
  have hcont : ∀ p, sorted.contains p = st.selectedRows.contains p := by
    intro p
    by_cases hm : p ∈ st.selectedRows
    · have hm' : p ∈ sorted := hperm.mem_iff.mpr hm
      simp [hm, hm']
    · have hm' : p ∉ sorted := fun hc => hm (hperm.mem_iff.mp hc)
      simp [hm, hm']
  constructor
  · rw [hPBD, hBD]
    show sorted.foldl (fun d index => d.eraseIdx index) st.data = _
    rw [hmain, keepUnselected_congr sorted st.selectedRows 0 st.data hcont,
      keepUnselected_eq_enum]
    rfl
  · rw [hPBD, hBD]

/-- C8 witness: the spec's example — deleting selected indices `[1, 3]`
from a five-row collection keeps exactly the rows originally at positions
0, 2 and 4, and clears the selection set. -/
theorem C8_witness :
    (performBulkDelete stBulk true).data =
      [[("i", Value.num 0)], [("i", Value.num 2)], [("i", Value.num 4)]] ∧
    (performBulkDelete stBulk true).selectedRows = [] := by
  have h := C8_bulkDelete_exact stBulk (by decide) (by decide) (by decide)
  exact ⟨by rw [h.1]; decide, h.2⟩

/-! Claim C6: sort direction toggling. -/

theorem charListLt_asymm (a b : List Char) (hab : charListLt a b = true)
    (hba : charListLt b a = true) : False := by
  induction a generalizing b with
  | nil => cases b <;> simp [charListLt] at hab hba
  | cons x xs ih =>
    cases b with
    | nil => simp [charListLt] at hab
    | cons y ys =>
      simp only [charListLt] at hab hba
      by_cases h1 : x.toNat < y.toNat
      · have h2 : ¬y.toNat < x.toNat := by omega
        simp [h1, h2] at hba
      · by_cases h2 : y.toNat < x.toNat
        · simp [h1, h2] at hab
        · simp [h1, h2] at hab hba
          exact ih ys hab hba

theorem JsNum.lt_asymm (x y : JsNum) (hxy : JsNum.lt x y = true)
    (hyx : JsNum.lt y x = true) : False := by
  cases x <;> cases y <;> simp [JsNum.lt] at hxy hyx <;> omega

theorem jsLtValue_asymm {a b : Value} (hab : jsLtValue a b = true)
    (hba : jsLtValue b a = true) : False := by
  cases a <;> cases b <;>
    first
      | exact charListLt_asymm _ _ (by simpa [jsLtValue] using hab)
          (by simpa [jsLtValue] using hba)
      | exact JsNum.lt_asymm _ _ (by simpa [jsLtValue] using hab)
          (by simpa [jsLtValue] using hba)

theorem jsLtValue_num (x y : Int) :
    jsLtValue (.num x) (.num y) = decide (x < y) := by
  simp [jsLtValue, jsToNumber, JsNum.lt]

/-- A value that is a JS number in the embedding. -/
def Value.isNum : Value → Bool
  | .num _ => true
  | _ => false

theorem Value.isNum_iff (v : Value) : v.isNum = true ↔ ∃ n, v = .num n := by
  cases v <;> simp [Value.isNum]

/-- Characterization of the ascending comparator: "comes not after" is
value equality or JS strict less-than on the sort field. -/
theorem sortComparator_asc_le (field : String) (a b : Record) :
    (sortComparator field "asc" a b ≤ 0) ↔
      (Record.get a field = Record.get b field ∨
        jsLtValue (Record.get a field) (Record.get b field) = true) := by
  simp only [sortComparator]
  by_cases heq : (Record.get a field == Record.get b field) = true
  · have h := eq_of_beq heq
    simp [heq, h]
  · have hne : Record.get a field ≠ Record.get b field := by simpa using heq
    by_cases hlt : jsLtValue (Record.get a field) (Record.get b field) = true
    · simp [heq, hlt]
    · simp [heq, hlt, hne]

/-- Characterization of the descending comparator. -/
theorem sortComparator_desc_le (field : String) (a b : Record) :
    (sortComparator field "desc" a b ≤ 0) ↔
      (Record.get a field = Record.get b field ∨
        jsLtValue (Record.get a field) (Record.get b field) = false) := by
  simp only [sortComparator]
  by_cases heq : (Record.get a field == Record.get b field) = true
  · have h := eq_of_beq heq
    simp [heq, h]
  · have hne : Record.get a field ≠ Record.get b field := by simpa using heq
    by_cases hlt : jsLtValue (Record.get a field) (Record.get b field) = true
    · simp [heq, hlt, hne]
    · simp [heq, hlt, hne]

theorem asc_total_num (f : String) (a b : Record)
    (hx : ∃ x, Record.get a f = Value.num x) (hy : ∃ y, Record.get b f = Value.num y)
    (hab : decide (sortComparator f "asc" a b ≤ 0) = false) :
    decide (sortComparator f "asc" b a ≤ 0) = true := by
  obtain ⟨x, hx⟩ := hx
  obtain ⟨y, hy⟩ := hy
  rw [decide_eq_false_iff_not, sortComparator_asc_le, hx, hy, jsLtValue_num] at hab
  rw [decide_eq_true_eq, sortComparator_asc_le, hx, hy, jsLtValue_num]
  simp only [Value.num.injEq, decide_eq_true_eq] at hab ⊢
  omega

theorem asc_trans_num (f : String) (a b c : Record)
    (hx : ∃ x, Record.get a f = Value.num x) (hy : ∃ y, Record.get b f = Value.num y)
    (hz : ∃ z, Record.get c f = Value.num z)
    (hab : decide (sortComparator f "asc" a b ≤ 0) = true)
    (hbc : decide (sortComparator f "asc" b c ≤ 0) = true) :
    decide (sortComparator f "asc" a c ≤ 0) = true := by
  obtain ⟨x, hx⟩ := hx
  obtain ⟨y, hy⟩ := hy
  obtain ⟨z, hz⟩ := hz
  rw [decide_eq_true_eq, sortComparator_asc_le, hx, hy, jsLtValue_num] at hab
  rw [decide_eq_true_eq, sortComparator_asc_le, hy, hz, jsLtValue_num] at hbc
  rw [decide_eq_true_eq, sortComparator_asc_le, hx, hz, jsLtValue_num]
  simp only [Value.num.injEq, decide_eq_true_eq] at hab hbc ⊢
  omega

theorem desc_total_num (f : String) (a b : Record)
    (hx : ∃ x, Record.get a f = Value.num x) (hy : ∃ y, Record.get b f = Value.num y)
    (hab : decide (sortComparator f "desc" a b ≤ 0) = false) :
    decide (sortComparator f "desc" b a ≤ 0) = true := by
  obtain ⟨x, hx⟩ := hx
  obtain ⟨y, hy⟩ := hy
  rw [decide_eq_false_iff_not, sortComparator_desc_le, hx, hy, jsLtValue_num] at hab
  rw [decide_eq_true_eq, sortComparator_desc_le, hx, hy, jsLtValue_num]
  simp only [Value.num.injEq, decide_eq_false_iff_not, decide_eq_true_eq] at hab ⊢
  omega

theorem desc_trans_num (f : String) (a b c : Record)
    (hx : ∃ x, Record.get a f = Value.num x) (hy : ∃ y, Record.get b f = Value.num y)
    (hz : ∃ z, Record.get c f = Value.num z)
    (hab : decide (sortComparator f "desc" a b ≤ 0) = true)
    (hbc : decide (sortComparator f "desc" b c ≤ 0) = true) :
    decide (sortComparator f "desc" a c ≤ 0) = true := by
  obtain ⟨x, hx⟩ := hx
  obtain ⟨y, hy⟩ := hy
  obtain ⟨z, hz⟩ := hz
  rw [decide_eq_true_eq, sortComparator_desc_le, hx, hy, jsLtValue_num] at hab
  rw [decide_eq_true_eq, sortComparator_desc_le, hy, hz, jsLtValue_num] at hbc
  rw [decide_eq_true_eq, sortComparator_desc_le, hx, hz, jsLtValue_num]
  simp only [Value.num.injEq, decide_eq_false_iff_not, decide_eq_true_eq] at hab hbc ⊢
  omega

/-- Two rows tying on `f` (1 and 1) but distinguished by `g`. -/
def stSortDup : TC :=
  { config := {}
    data := [[("f", .num 1), ("g", .num 1)], [("f", .num 1), ("g", .num 2)]] }

/-- C6 counterexample: on two records with **equal** values at the sort
field, the second `sort(f)` flips the direction state but the stable sort
keeps the tied rows in their current relative order, so the row order is
**not** the reverse of the first call's order. -/
theorem C6_counterexample :
    (sort (sort stSortDup "f") "f").sortOrder = "desc" ∧
    (sort (sort stSortDup "f") "f").data = (sort stSortDup "f").data ∧
    (sort (sort stSortDup "f") "f").data ≠ ((sort stSortDup "f").data).reverse := by
  refine ⟨rfl, by decide, by decide⟩

/-- C6 (amended): starting from a state not sorted on `f`, `sort(f)` sorts
ascending on `f`; a second `sort(f)` toggles the direction to `'desc'` and
— when the values at `f` are pairwise distinct numbers — yields exactly
the reverse of the first call's row order (with ties, the stable sort
keeps tied rows in place, so the reverse claim fails — see the
counterexample); `sort(f)` then `sort(g)` for `g ≠ f` resets the
direction to `'asc'` and sorts ascending on `g` (a permutation of the
original rows with no pair out of ascending order on `g`). -/
theorem C6_sort_behavior (st : TC) (f g : String)
    (hsf : (st.sortField == some f) = false)
    (hnumf : st.data.all (fun r => (Record.get r f).isNum) = true)
    (hndf : (st.data.map (fun r => Record.get r f)).Nodup)
    (hfg : f ≠ g)
    (hnumg : st.data.all (fun r => (Record.get r g).isNum) = true) :
    ((sort st f).sortOrder = "asc" ∧ (sort st f).sortField = some f) ∧
    ((sort (sort st f) f).sortOrder = "desc" ∧
      (sort (sort st f) f).data = ((sort st f).data).reverse) ∧
    ((sort (sort st f) g).sortOrder = "asc" ∧
      (sort (sort st f) g).sortField = some g ∧
      ((sort (sort st f) g).data).Perm st.data ∧
      List.Pairwise
        (fun a b => jsLtValue (Record.get b g) (Record.get a g) = false)
        ((sort (sort st f) g).data)) := by
  have h1 : sort st f =
      { st with
        sortField := some f
        sortOrder := "asc"
        data := jsSortStable (sortComparator f "asc") st.data
        currentPage := 1 } := by
    simp [sort, hsf]
  have hfg' : ((some f : Option String) == some g) = false := by simp [hfg]
  have h2 : sort (sort st f) f =
      { st with
        sortField := some f
        sortOrder := "desc"
        data := jsSortStable (sortComparator f "desc")
          (jsSortStable (sortComparator f "asc") st.data)
        currentPage := 1 } := by
    rw [h1]
    simp [sort]
  have h3 : sort (sort st f) g =
      { st with
        sortField := some g
        sortOrder := "asc"
        data := jsSortStable (sortComparator g "asc")
          (jsSortStable (sortComparator f "asc") st.data)
        currentPage := 1 } := by
    rw [h1]
    simp [sort, hfg']
  have hnumF : ∀ r ∈ st.data, ∃ n, Record.get r f = Value.num n := by
    intro r hr
    rw [← Value.isNum_iff]
    simpa using List.all_eq_true.mp hnumf r hr
  have hnumG : ∀ r ∈ st.data, ∃ n, Record.get r g = Value.num n := by
    intro r hr
    rw [← Value.isNum_iff]
    simpa using List.all_eq_true.mp hnumg r hr
  have hperm1 : (jsSortStable (sortComparator f "asc") st.data).Perm st.data :=
    perm_insertionSortLe _ _
  set l1 := jsSortStable (sortComparator f "asc") st.data with hl1def
  have hnum1F : ∀ r ∈ l1, ∃ n, Record.get r f = Value.num n := fun r hr =>
    hnumF r (hperm1.mem_iff.mp hr)
  have hnum1G : ∀ r ∈ l1, ∃ n, Record.get r g = Value.num n := fun r hr =>
    hnumG r (hperm1.mem_iff.mp hr)
  have hsorted1 : List.Pairwise
      (fun a b => decide (sortComparator f "asc" a b ≤ 0) = true) l1 :=
    sorted_insertionSortLe _ st.data
      (fun a ha b hb hab => asc_total_num f a b (hnumF a ha) (hnumF b hb) hab)
      (fun a ha b hb c hc hab hbc =>
        asc_trans_num f a b c (hnumF a ha) (hnumF b hb) (hnumF c hc) hab hbc)
  have hnd1 : (l1.map (fun r => Record.get r f)).Nodup :=
    ((hperm1.map (fun r => Record.get r f)).symm).nodup hndf
  have hstrict1 : List.Pairwise
      (fun a b => jsLtValue (Record.get a f) (Record.get b f) = true) l1 := by
    refine pairwise_strict_of_nodup_keys (fun r => Record.get r f) l1 _ _ hnd1 hsorted1 ?_
    intro a _ b _ hne hab
    rw [decide_eq_true_eq, sortComparator_asc_le] at hab
    rcases hab with h | h
    · exact absurd h hne
    · exact h
  have hrev : List.Pairwise
      (fun a b => jsLtValue (Record.get b f) (Record.get a f) = true) l1.reverse :=
    List.pairwise_reverse.mpr hstrict1
  have hperm2 : (jsSortStable (sortComparator f "desc") l1).Perm l1 :=
    perm_insertionSortLe _ _
  set l2 := jsSortStable (sortComparator f "desc") l1 with hl2def
  have hnum2F : ∀ r ∈ l2, ∃ n, Record.get r f = Value.num n := fun r hr =>
    hnum1F r (hperm2.mem_iff.mp hr)
  have hsorted2 : List.Pairwise
      (fun a b => decide (sortComparator f "desc" a b ≤ 0) = true) l2 :=
    sorted_insertionSortLe _ l1
      (fun a ha b hb hab => desc_total_num f a b (hnum1F a ha) (hnum1F b hb) hab)
      (fun a ha b hb c hc hab hbc =>
        desc_trans_num f a b c (hnum1F a ha) (hnum1F b hb) (hnum1F c hc) hab hbc)
  have hnd2 : (l2.map (fun r => Record.get r f)).Nodup :=
    ((hperm2.map (fun r => Record.get r f)).symm).nodup hnd1
  have hstrict2 : List.Pairwise
      (fun a b => jsLtValue (Record.get b f) (Record.get a f) = true) l2 := by
    refine pairwise_strict_of_nodup_keys (fun r => Record.get r f) l2 _ _ hnd2 hsorted2 ?_
    intro a ha b hb hne hab
    obtain ⟨x, hx⟩ := hnum2F a ha
    obtain ⟨y, hy⟩ := hnum2F b hb
    have hne' : Record.get a f ≠ Record.get b f := hne
    rw [decide_eq_true_eq, sortComparator_desc_le, hx, hy, jsLtValue_num] at hab
    rw [hx, hy] at hne'
    rw [hy, hx, jsLtValue_num]
    simp only [Value.num.injEq, decide_eq_false_iff_not, decide_eq_true_eq,
      ne_eq] at hab hne' ⊢
    omega
  have heq2 : l2 = l1.reverse := by
    haveI : IsAntisymm Record
        (fun a b => jsLtValue (Record.get b f) (Record.get a f) = true) :=
      ⟨fun a b hab hba => (jsLtValue_asymm hab hba).elim⟩
    exact List.eq_of_perm_of_sorted (hperm2.trans (List.reverse_perm l1).symm)
      hstrict2 hrev
  have hperm3 : (jsSortStable (sortComparator g "asc") l1).Perm l1 :=
    perm_insertionSortLe _ _
  set l3 := jsSortStable (sortComparator g "asc") l1 with hl3def
  have hnum3G : ∀ r ∈ l3, ∃ n, Record.get r g = Value.num n := fun r hr =>
    hnum1G r (hperm3.mem_iff.mp hr)
  have hsorted3 : List.Pairwise
      (fun a b => decide (sortComparator g "asc" a b ≤ 0) = true) l3 :=
    sorted_insertionSortLe _ l1
      (fun a ha b hb hab => asc_total_num g a b (hnum1G a ha) (hnum1G b hb) hab)
      (fun a ha b hb c hc hab hbc =>
        asc_trans_num g a b c (hnum1G a ha) (hnum1G b hb) (hnum1G c hc) hab hbc)
  have hfinal3 : List.Pairwise
      (fun a b => jsLtValue (Record.get b g) (Record.get a g) = false) l3 := by
    refine List.Pairwise.imp_of_mem ?_ hsorted3
    intro a b ha hb hab
    obtain ⟨x, hx⟩ := hnum3G a ha
    obtain ⟨y, hy⟩ := hnum3G b hb
    rw [decide_eq_true_eq, sortComparator_asc_le, hx, hy, jsLtValue_num] at hab
    rw [hy, hx, jsLtValue_num]
    simp only [Value.num.injEq, decide_eq_true_eq, decide_eq_false_iff_not] at hab ⊢
    omega
  refine ⟨⟨?_, ?_⟩, ⟨?_, ?_⟩, ?_, ?_, ?_, ?_⟩
  · rw [h1]
  · rw [h1]
  · rw [h2]
  · rw [h2, h1]
    exact heq2
  · rw [h3]
  · rw [h3]
  · rw [h3]
    exact hperm3.trans hperm1
  · rw [h3]
    exact hfinal3

/-- Three rows with distinct numeric values at both `f` and `g`, not
currently sorted on `f`. -/
def stSortNums : TC :=
  { config := {}
    data := [[("f", .num 2), ("g", .num 30)], [("f", .num 1), ("g", .num 10)],
      [("f", .num 3), ("g", .num 20)]] }

/-- C6 witness: on distinct numeric keys, the double sort reverses the
first result, and sorting a different field afterwards is ascending. -/
theorem C6_witness :
    (sort (sort stSortNums "f") "f").data = ((sort stSortNums "f").data).reverse ∧
    (sort (sort stSortNums "f") "f").sortOrder = "desc" ∧
    (sort (sort stSortNums "f") "g").sortOrder = "asc" ∧
    (sort (sort stSortNums "f") "g").sortField = some "g" := by
  have h := C6_sort_behavior stSortNums "f" "g" (by decide) (by decide) (by decide)
    (by decide) (by decide)
  exact ⟨h.2.1.2, h.2.1.1, h.2.2.1, h.2.2.2.1⟩

end TableCrafter
